import Mathlib

/-!
Verification of the document ingestion / embedding / vector-retrieval pipeline of
the AI-Powered-Paper-generator repository.

The development shallowly embeds the relevant Python code:

* `RecursiveCharacterTextSplitter.split_text` (src/services/data_ingestion.py),
  with Python strings modelled as `List Char`, `str.rfind(sep, start, end)` and
  `str.strip()` modelled explicitly, and the `while` loop modelled with an
  explicit fuel argument (`none` means the loop has not finished within the
  given fuel; a run that returns `none` for every fuel diverges).
* `GeminiEmbedder.get_embedding` / `get_tfidf_embedding`
  (src/services/embedding_qdrant.py), with float vectors modelled over `ℚ`,
  the external Gemini response modelled as an `Option (List ℚ)` argument and
  `np.random.rand` modelled as an explicit random source `Nat → ℚ`.
* `VectorMemory.__init__` / `store_document` / `retrieve`
  (src/services/embedding_qdrant.py), with the Qdrant collection modelled as a
  map from point id to point (Qdrant collections are keyed by point id and
  `upsert` replaces by id), Python dicts as ordered association lists with
  Python dict-literal update semantics, and each `try`/`except` block modelled
  by an explicit failure flag; the `except` branches never re-raise, matching
  the source.
* the `/query` route `semantic_search` (src/api/routes_search.py).
-/

/-! ## Python string primitives -/

/-- Python whitespace characters recognised by `str.strip()` (ASCII range). -/
def isPySpace (c : Char) : Bool :=
  c = ' ' || c = '\t' || c = '\n' || c = '\r' || c = '\x0b' || c = '\x0c'

/-- Python `str.strip()`: drop the maximal whitespace head, then keep what
precedes the maximal whitespace tail. -/
def pyStrip (s : List Char) : List Char :=
  let t := s.dropWhile isPySpace
  t.take (t.length - (t.reverse.takeWhile isPySpace).length)

/-- Does `sep` occur in `text` starting at position `pos`? -/
def matchesAt (text sep : List Char) (pos : Nat) : Bool :=
  sep.isPrefixOf (text.drop pos)

/-- Python `text.rfind(sep, start, stop)` restricted to a found result:
the largest position `p` with `start ≤ p`, `p + sep.length ≤ stop` and a match
of `sep` at `p`; `none` models the `-1` result. -/
def rfind (text sep : List Char) (start stop : Nat) : Option Nat :=
  ((List.range (stop + 1)).filter
    (fun p => decide (start ≤ p) && decide (p + sep.length ≤ stop) && matchesAt text sep p)).getLast?

/-! ## RecursiveCharacterTextSplitter (src/services/data_ingestion.py) -/

structure RecursiveCharacterTextSplitter where
  chunk_size : Nat
  chunk_overlap : Nat
  separators : List (List Char)

/-- The default separator hierarchy of the splitter. -/
def defaultSeparators : List (List Char) :=
  (["\n\n", "\n", ". ", "! ", "? ", " ", ""] : List String).map String.toList

/-- `RecursiveCharacterTextSplitter.__init__`: the arguments are stored as
given, with no validation; `separators` falls back to the default list when
the argument is `None` or empty (Python truthiness of the list). -/
def mkSplitter (chunk_size chunk_overlap : Nat)
    (separators : Option (List (List Char))) : RecursiveCharacterTextSplitter :=
  { chunk_size := chunk_size
    chunk_overlap := chunk_overlap
    separators :=
      match separators with
      | some l => if l = [] then defaultSeparators else l
      | none => defaultSeparators }

/-- The separator back-off of `split_text`: try each separator in order, skip
the empty one (`if separator:` in the source), and on the first separator with
a rightmost occurrence `pos` in `[start, e)` satisfying `pos > start`, return
`pos + sep.length`; otherwise keep `e`. -/
def adjustEnd (seps : List (List Char)) (text : List Char) (start e : Nat) : Nat :=
  match seps with
  | [] => e
  | sep :: rest =>
    if sep = [] then adjustEnd rest text start e
    else
      match rfind text sep start e with
      | some pos => if start < pos then pos + sep.length else adjustEnd rest text start e
      | none => adjustEnd rest text start e

/-- The end position computed by one iteration of the `split_text` loop:
`end = min(start + chunk_size, len(text))`, adjusted by the separator back-off
only when `end < len(text)`. -/
def chunkEnd (sp : RecursiveCharacterTextSplitter) (text : List Char) (start : Nat) : Nat :=
  let e0 := min (start + sp.chunk_size) text.length
  if e0 < text.length then adjustEnd sp.separators text start e0 else e0

/-- The chunk emitted by one iteration: `text[start:end].strip()`. -/
def currentChunk (sp : RecursiveCharacterTextSplitter) (text : List Char) (start : Nat) :
    List Char :=
  pyStrip ((text.drop start).take (chunkEnd sp text start - start))

/-- `if chunk: chunks.append(chunk)`. -/
def nextAcc (sp : RecursiveCharacterTextSplitter) (text : List Char) (start : Nat)
    (acc : List (List Char)) : List (List Char) :=
  if currentChunk sp text start = [] then acc else acc ++ [currentChunk sp text start]

/-- The `while start < len(text)` loop of `split_text`, one fuel unit per
iteration.  The cursor update is `start = end - chunk_overlap` clamped at zero
(`Nat` subtraction), and the loop breaks when `end >= len(text)`.  `none`
means the fuel ran out before the loop finished. -/
def splitTextLoop (sp : RecursiveCharacterTextSplitter) (text : List Char) :
    Nat → Nat → List (List Char) → Option (List (List Char))
  | 0, _, _ => none
  | fuel + 1, start, acc =>
    if start < text.length then
      if text.length ≤ chunkEnd sp text start then some (nextAcc sp text start acc)
      else splitTextLoop sp text fuel (chunkEnd sp text start - sp.chunk_overlap)
        (nextAcc sp text start acc)
    else some acc

/-- `RecursiveCharacterTextSplitter.split_text`: empty input returns `[]`
(`if not text: return []`), otherwise the loop runs from `start = 0`. -/
def split_text (sp : RecursiveCharacterTextSplitter) (text : List Char) (fuel : Nat) :
    Option (List (List Char)) :=
  if text = [] then some [] else splitTextLoop sp text fuel 0 []

/-- Reconstruction described by the round-trip claim: strip each later
fragment's leading `overlap` characters and concatenate the remainders. -/
def reconstructStripped (overlap : Nat) : List (List Char) → List Char
  | [] => []
  | f :: rest => f ++ (rest.map (List.drop overlap)).flatten

/-! ## Splitter lemmas -/

theorem dropWhile_eq_drop (p : Char → Bool) (s : List Char) :
    s.dropWhile p = s.drop (s.takeWhile p).length := by
  induction s with
  | nil => rfl
  | cons c cs ih =>
    by_cases h : p c
    · simp [List.dropWhile_cons, List.takeWhile_cons, h, ih]
    · simp [List.dropWhile_cons, List.takeWhile_cons, h]

theorem pyStrip_slice (s : List Char) : ∃ a b, pyStrip s = (s.drop a).take b := by
  refine ⟨(s.takeWhile isPySpace).length,
    (s.dropWhile isPySpace).length
      - ((s.dropWhile isPySpace).reverse.takeWhile isPySpace).length, ?_⟩
  simp only [pyStrip]
  rw [dropWhile_eq_drop isPySpace s]

theorem pyStrip_length_le (s : List Char) : (pyStrip s).length ≤ s.length := by
  simp only [pyStrip]
  calc ((s.dropWhile isPySpace).take _).length
      ≤ (s.dropWhile isPySpace).length := by
        rw [List.length_take]; exact Nat.min_le_right _ _
    _ ≤ s.length := by
        rw [dropWhile_eq_drop, List.length_drop]; omega

theorem slice_slice (l : List Char) (a b c d : Nat) :
    ∃ e f, (((l.drop a).take b).drop c).take d = (l.drop e).take f := by
  refine ⟨a + c, min d (b - c), ?_⟩
  rw [List.drop_take, List.drop_drop, List.take_take]

theorem rfind_bound {text sep : List Char} {start stop p : Nat}
    (h : rfind text sep start stop = some p) : start ≤ p ∧ p + sep.length ≤ stop := by
  have hm := List.mem_of_getLast?_eq_some h
  rw [List.mem_filter] at hm
  obtain ⟨-, hp⟩ := hm
  simp only [Bool.and_eq_true, decide_eq_true_eq] at hp
  exact ⟨hp.1.1, hp.1.2⟩

theorem adjustEnd_le (seps : List (List Char)) (text : List Char) (start e : Nat) :
    adjustEnd seps text start e ≤ e := by
  induction seps with
  | nil => exact Nat.le_refl e
  | cons sep rest ih =>
    simp only [adjustEnd]
    by_cases hs : sep = []
    · rw [if_pos hs]; exact ih
    · rw [if_neg hs]
      cases hr : rfind text sep start e with
      | none => exact ih
      | some pos =>
        show (if start < pos then pos + sep.length else adjustEnd rest text start e) ≤ e
        by_cases hp : start < pos
        · rw [if_pos hp]
          have hb := rfind_bound hr
          have hsep : 1 ≤ sep.length := by
            cases sep with
            | nil => exact absurd rfl hs
            | cons x xs => simp
          omega
        · rw [if_neg hp]; exact ih

theorem chunkEnd_le (sp : RecursiveCharacterTextSplitter) (text : List Char) (start : Nat) :
    chunkEnd sp text start ≤ start + sp.chunk_size := by
  simp only [chunkEnd]
  by_cases h : min (start + sp.chunk_size) text.length < text.length
  · rw [if_pos h]
    calc adjustEnd sp.separators text start (min (start + sp.chunk_size) text.length)
        ≤ min (start + sp.chunk_size) text.length := adjustEnd_le _ _ _ _
      _ ≤ start + sp.chunk_size := Nat.min_le_left _ _
  · rw [if_neg h]; exact Nat.min_le_left _ _

theorem currentChunk_length_le (sp : RecursiveCharacterTextSplitter) (text : List Char)
    (start : Nat) : (currentChunk sp text start).length ≤ sp.chunk_size := by
  have h1 := pyStrip_length_le ((text.drop start).take (chunkEnd sp text start - start))
  have h2 : ((text.drop start).take (chunkEnd sp text start - start)).length
      ≤ chunkEnd sp text start - start := by
    rw [List.length_take]; exact Nat.min_le_left _ _
  have h3 := chunkEnd_le sp text start
  simp only [currentChunk]
  omega

theorem currentChunk_slice (sp : RecursiveCharacterTextSplitter) (text : List Char)
    (start : Nat) : ∃ a b, currentChunk sp text start = (text.drop a).take b := by
  obtain ⟨a, b, hab⟩ := pyStrip_slice ((text.drop start).take (chunkEnd sp text start - start))
  obtain ⟨e, f, hef⟩ := slice_slice text start (chunkEnd sp text start - start) a b
  exact ⟨e, f, by rw [currentChunk, hab, hef]⟩

theorem nextAcc_inv (sp : RecursiveCharacterTextSplitter) (text : List Char)
    (P : List Char → Prop) (start : Nat) (acc : List (List Char))
    (hP : currentChunk sp text start ≠ [] → P (currentChunk sp text start))
    (hacc : ∀ f ∈ acc, P f) : ∀ f ∈ nextAcc sp text start acc, P f := by
  intro f hf
  simp only [nextAcc] at hf
  by_cases hc : currentChunk sp text start = []
  · rw [if_pos hc] at hf; exact hacc f hf
  · rw [if_neg hc] at hf
    rcases List.mem_append.mp hf with h | h
    · exact hacc f h
    · rw [List.mem_singleton.mp h]; exact hP hc

theorem splitTextLoop_inv (sp : RecursiveCharacterTextSplitter) (text : List Char)
    (P : List Char → Prop)
    (hP : ∀ start, currentChunk sp text start ≠ [] → P (currentChunk sp text start)) :
    ∀ fuel start acc res, splitTextLoop sp text fuel start acc = some res →
      (∀ f ∈ acc, P f) → ∀ f ∈ res, P f := by
  intro fuel
  induction fuel with
  | zero =>
    intro start acc res h
    exact absurd h (by simp [splitTextLoop])
  | succ n ih =>
    intro start acc res h hacc
    rw [splitTextLoop] at h
    by_cases hs : start < text.length
    · rw [if_pos hs] at h
      by_cases he : text.length ≤ chunkEnd sp text start
      · rw [if_pos he] at h
        have := Option.some.inj h
        subst this
        exact nextAcc_inv sp text P start acc (hP start) hacc
      · rw [if_neg he] at h
        exact ih _ _ _ h (nextAcc_inv sp text P start acc (hP start) hacc)
    · rw [if_neg hs] at h
      have := Option.some.inj h
      subst this
      exact hacc

/-- Every fragment of a completed `split_text` run is non-empty, fits the
`chunk_size` budget, and is a trimmed contiguous slice of the input. -/
theorem split_text_mem (sp : RecursiveCharacterTextSplitter) (text : List Char)
    (fuel : Nat) (frags : List (List Char)) (f : List Char)
    (hs : split_text sp text fuel = some frags) (hf : f ∈ frags) :
    f ≠ [] ∧ f.length ≤ sp.chunk_size ∧ ∃ a b, f = (text.drop a).take b := by
  by_cases ht : text = []
  · rw [split_text, if_pos ht] at hs
    have := Option.some.inj hs
    subst this
    exact absurd hf (List.not_mem_nil f)
  · rw [split_text, if_neg ht] at hs
    refine splitTextLoop_inv sp text
      (fun g => g ≠ [] ∧ g.length ≤ sp.chunk_size ∧ ∃ a b, g = (text.drop a).take b)
      (fun start hne => ⟨hne, currentChunk_length_le sp text start,
        currentChunk_slice sp text start⟩)
      fuel 0 [] frags hs (by intro g hg; exact absurd hg (List.not_mem_nil g)) f hf

/-! ## GeminiEmbedder (src/services/embedding_qdrant.py)

Float vectors are modelled over `ℚ`.  The external Gemini response is an
`Option (List ℚ)` argument (`some v`: the API call returned the vector `v`;
`none`: the call raised and the `except` branch cascades to the fallback).
`np.random.rand(512)` is modelled as 512 draws from an explicit random source
`rng : Nat → ℚ`. -/

/-- The built-in English stop-word list of the vectorizer
(`stop_words=English` selects scikit-learn's frozen Glasgow IR list of
318 words; reproduced here in full). -/
def englishStopWords : List String :=
  ["a", "about", "above", "across", "after", "afterwards", "again", "against",
   "all", "almost", "alone", "along", "already", "also", "although", "always",
   "am", "among", "amongst", "amoungst", "amount", "an", "and", "another",
   "any", "anyhow", "anyone", "anything", "anyway", "anywhere", "are",
   "around", "as", "at", "back", "be", "became", "because", "become",
   "becomes", "becoming", "been", "before", "beforehand", "behind", "being",
   "below", "beside", "besides", "between", "beyond", "bill", "both",
   "bottom", "but", "by", "call", "can", "cannot", "cant", "co", "con",
   "could", "couldnt", "cry", "de", "describe", "detail", "do", "done",
   "down", "due", "during", "each", "eg", "eight", "either", "eleven",
   "else", "elsewhere", "empty", "enough", "etc", "even", "ever", "every",
   "everyone", "everything", "everywhere", "except", "few", "fifteen",
   "fifty", "fill", "find", "fire", "first", "five", "for", "former",
   "formerly", "forty", "found", "four", "from", "front", "full", "further",
   "get", "give", "go", "had", "has", "hasnt", "have", "he", "hence", "her",
   "here", "hereafter", "hereby", "herein", "hereupon", "hers", "herself",
   "him", "himself", "his", "how", "however", "hundred", "i", "ie", "if",
   "in", "inc", "indeed", "interest", "into", "is", "it", "its", "itself",
   "keep", "last", "latter", "latterly", "least", "less", "ltd", "made",
   "many", "may", "me", "meanwhile", "might", "mill", "mine", "more",
   "moreover", "most", "mostly", "move", "much", "must", "my", "myself",
   "name", "namely", "neither", "never", "nevertheless", "next", "nine",
   "no", "nobody", "none", "noone", "nor", "not", "nothing", "now",
   "nowhere", "of", "off", "often", "on", "once", "one", "only", "onto",
   "or", "other", "others", "otherwise", "our", "ours", "ourselves", "out",
   "over", "own", "part", "per", "perhaps", "please", "put", "rather", "re",
   "same", "see", "seem", "seemed", "seeming", "seems", "serious", "several",
   "she", "should", "show", "side", "since", "sincere", "six", "sixty",
   "so", "some", "somehow", "someone", "something", "sometime", "sometimes",
   "somewhere", "still", "such", "system", "take", "ten", "than", "that",
   "the", "their", "them", "themselves", "then", "thence", "there",
   "thereafter", "thereby", "therefore", "therein", "thereupon", "these",
   "they", "thick", "thin", "third", "this", "those", "though", "three",
   "through", "throughout", "thru", "thus", "to", "together", "too", "top",
   "toward", "towards", "twelve", "twenty", "two", "un", "under", "until",
   "up", "upon", "us", "very", "via", "was", "we", "well", "were", "what",
   "whatever", "when", "whence", "whenever", "where", "whereafter",
   "whereas", "whereby", "wherein", "whereupon", "wherever", "whether",
   "which", "while", "whither", "who", "whoever", "whole", "whom", "whose",
   "why", "will", "with", "within", "without", "would", "yet", "you",
   "your", "yours", "yourself", "yourselves"]

/-- Word characters of the vectorizer's token pattern (ASCII approximation of
the regex word class). -/
def isWordChar (c : Char) : Bool := c.isAlphanum || c = '_'

/-- Maximal runs of word characters, accumulator-style (`cur` holds the
current run reversed). -/
def wordRunsAux : List Char → List Char → List (List Char)
  | [], cur => if cur = [] then [] else [cur.reverse]
  | c :: cs, cur =>
    if isWordChar c then wordRunsAux cs (c :: cur)
    else if cur = [] then wordRunsAux cs [] else cur.reverse :: wordRunsAux cs []

/-- The vectorizer's tokenization: lowercase, take runs of word characters of
length at least two, and remove English stop words. -/
def sklearnTokens (text : List Char) : List (List Char) :=
  ((wordRunsAux (text.map Char.toLower) []).filter (fun t => decide (2 ≤ t.length))).filter
    (fun t => decide (t ∉ englishStopWords.map String.toList))

/-- The vectorizer call `TfidfVectorizer(max_features=512, stop_words=English)
.fit_transform([text]).toarray()[0]`: one weight per vocabulary term, or
`none` when the vocabulary is empty (the vectorizer raises in that case and
the `except` branch falls back to a random vector).  With a single document
every term's idf is the same constant, so the weights are modelled as the term
counts; the uniform idf and l2-normalisation scale factors and the
`max_features` cut (subsumed by the explicit truncation below) affect none of
the properties proved about this function. -/
def tfidfRaw (text : List Char) : Option (List ℚ) :=
  if (sklearnTokens text).dedup = [] then none
  else some (((sklearnTokens text).dedup).map (fun t => ((sklearnTokens text).count t : ℚ)))

/-- Pad with zeros to 512 entries, or truncate to the first 512
(`np.pad` / `embedding[:512]` in the source). -/
def padTruncate (v : List ℚ) : List ℚ :=
  if v.length < 512 then v ++ List.replicate (512 - v.length) 0 else v.take 512

/-- `np.random.rand(512).tolist()`: 512 draws from the random source. -/
def randomVec (rng : Nat → ℚ) : List ℚ := (List.range 512).map rng

/-- `GeminiEmbedder.get_tfidf_embedding`: random vector when scikit-learn is
unavailable; otherwise the tf-idf vector padded or truncated to 512, falling
back to a random vector when the vectorizer raises. -/
def get_tfidf_embedding : Bool → (Nat → ℚ) → List Char → List ℚ
  | false, rng, _ => randomVec rng
  | true, rng, text =>
    match tfidfRaw text with
    | some v => padTruncate v
    | none => randomVec rng

/-- `GeminiEmbedder.get_embedding`: when the embedder is available and the
Gemini call succeeds, the provider's vector is returned unmodified; otherwise
(unavailable, or the call raised) the result cascades to
`get_tfidf_embedding`. -/
def get_embedding (available : Bool) (geminiResult : Option (List ℚ))
    (sklearnAvailable : Bool) (rng : Nat → ℚ) (text : List Char) : List ℚ :=
  match available, geminiResult with
  | true, some v => v
  | _, _ => get_tfidf_embedding sklearnAvailable rng text

/-! ## VectorMemory (src/services/embedding_qdrant.py) -/

/-- Python values appearing in payloads and metadata. -/
inductive PyVal where
  | s : String → PyVal
  | n : Nat → PyVal
  | q : ℚ → PyVal
  | dict : List (String × PyVal) → PyVal

/-- A Python dict as an ordered association list (insertion order). -/
abbrev PyDict := List (String × PyVal)

/-- `d[k] = v` on a dict: overwrite in place if the key exists, else append. -/
def dictInsert (d : PyDict) (k : String) (v : PyVal) : PyDict :=
  if d.any (fun kv => kv.1 == k) then d.map (fun kv => if kv.1 == k then (k, v) else kv)
  else d ++ [(k, v)]

/-- A Python dict literal built from the listed pairs left to right
(later pairs overwrite earlier keys, as in `{x: a, **m, y: b}`). -/
def pyDict (pairs : List (String × PyVal)) : PyDict :=
  pairs.foldl (fun d kv => dictInsert d kv.1 kv.2) []

/-- `payload.get(k)`: `none` when the key is absent. -/
def dictGet (d : PyDict) (k : String) : Option PyVal :=
  match d.find? (fun kv => kv.1 == k) with
  | some kv => some kv.2
  | none => none

/-- A point stored in the Qdrant collection: `PointStruct(id, vector, payload)`. -/
structure StoredPoint where
  id : Nat
  vector : List ℚ
  payload : PyDict

/-- A record of the in-process fallback list:
`{"text": chunk, "metadata": {**metadata, "chunk_id": i}}`. -/
structure FallbackRecord where
  text : String
  metadata : PyDict

/-- The `VectorMemory` object.  `client` is `none` when Qdrant initialisation
failed (degraded mode); a reachable collection is the map from point id to
point.  `fallback_storage` is `none` when the `_fallback_storage` attribute
has never been assigned (the `hasattr` check in `retrieve`). -/
structure VectorMemory where
  client : Option (Nat → Option StoredPoint)
  collection : String
  fallback_storage : Option (List FallbackRecord)

/-- The instance attribute names ever assigned on a `VectorMemory` object in
the class body: `client`, `collection`, `embedder` on the `__init__` success
path, `client` and `_fallback_storage` on its failure path, and
`_fallback_storage` again in the failure branch of `store_document`. -/
def vectorMemoryAttrNames : List String :=
  ["client", "collection", "embedder", "_fallback_storage"]

/-- `VectorMemory.__init__`: when Qdrant is reachable the client is kept (a
fresh collection is modelled as the empty map) and `_fallback_storage` is
never assigned; when initialisation raises, `client = None` and
`_fallback_storage = []`.  The `embedder` attribute is configuration only and
is modelled by the `embedOf` argument of `store_document`. -/
def vectorMemoryInit (qdrantReachable : Bool) (collection_name : String) : VectorMemory :=
  if qdrantReachable then
    { client := some (fun _ => none), collection := collection_name, fallback_storage := none }
  else
    { client := none, collection := collection_name, fallback_storage := some [] }

/-- Qdrant `upsert` of one point: the point replaces any stored point with the
same id, otherwise it is inserted. -/
def upsertStep (c : Nat → Option StoredPoint) (p : StoredPoint) : Nat → Option StoredPoint :=
  fun i => if p.id = i then some p else c i

/-- Qdrant `client.upsert(collection_name, points)`. -/
def qdrantUpsert (c : Nat → Option StoredPoint) (pts : List StoredPoint) :
    Nat → Option StoredPoint :=
  pts.foldl upsertStep c

/-- The point built for chunk `idx`:
`PointStruct(id=idx, vector=vec, payload={"text": chunk, **metadata, "chunk_id": idx})`. -/
def mkPoint (embedOf : String → List ℚ) (metadata : PyDict) (idx : Nat) (chunk : String) :
    StoredPoint :=
  { id := idx
    vector := embedOf chunk
    payload := pyDict ([("text", PyVal.s chunk)] ++ metadata ++ [("chunk_id", PyVal.n idx)]) }

/-- The point list of one `store_document` call
(`for idx, (vec, chunk) in enumerate(zip(vectors, chunks))`). -/
def mkPoints (embedOf : String → List ℚ) (metadata : PyDict) (chunks : List String) :
    List StoredPoint :=
  (chunks.enum).map (fun ic => mkPoint embedOf metadata ic.1 ic.2)

/-- The fallback records of one call
(`{"text": chunk, "metadata": {**metadata, "chunk_id": i}}` for each chunk). -/
def mkFallbackRecords (chunks : List String) (metadata : PyDict) : List FallbackRecord :=
  (chunks.enum).map (fun ic =>
    { text := ic.2, metadata := pyDict (metadata ++ [("chunk_id", PyVal.n ic.1)]) })

/-- `VectorMemory.store_document`.  `embedOf` is the embedder
(`self.embedder.get_embedding`); `opFails` models the `try` block around
embedding and upsert raising.  With `client = None` the records are appended
to the fallback list; on failure the `except` branch (which never re-raises)
assigns `_fallback_storage = []` and refills it with the current call's
records; on success the points are upserted by id. -/
def store_document (vm : VectorMemory) (embedOf : String → List ℚ) (opFails : Bool)
    (chunks : List String) (metadata : PyDict) : VectorMemory :=
  match vm.client with
  | none =>
    { vm with
      fallback_storage := some ((vm.fallback_storage.getD []) ++ mkFallbackRecords chunks metadata) }
  | some coll =>
    if opFails then
      { vm with fallback_storage := some (mkFallbackRecords chunks metadata) }
    else
      { vm with client := some (qdrantUpsert coll (mkPoints embedOf metadata chunks)) }

/-- `VectorMemory.retrieve`.  `searchResult` is the backing store's ranked
response to `client.search(..., limit=top_k)` — a list of `(payload, score)`
pairs — or `none` when the search raises.  The connected path returns
`[r.payload for r in results]`; the degraded and failure paths return the
first `top_k` fallback records (`self._fallback_storage[:top_k]` guarded by
`hasattr`). -/
def retrieve (vm : VectorMemory) (searchResult : Option (List (PyDict × ℚ)))
    (top_k : Nat) : List PyDict :=
  match vm.client with
  | none =>
    match vm.fallback_storage with
    | some l => (l.take top_k).map (fun r =>
        [("text", PyVal.s r.text), ("metadata", PyVal.dict r.metadata)])
    | none => []
  | some _ =>
    match searchResult with
    | some results => results.map Prod.fst
    | none =>
      match vm.fallback_storage with
      | some l => (l.take top_k).map (fun r =>
          [("text", PyVal.s r.text), ("metadata", PyVal.dict r.metadata)])
      | none => []

/-- Lookup of a point id through the `client` field. -/
def clientLookup (vm : VectorMemory) (i : Nat) : Option StoredPoint :=
  match vm.client with
  | some coll => coll i
  | none => none

/-! ## The `/query` route (src/api/routes_search.py) -/

/-- One entry of the `matches` list built by `semantic_search`. -/
structure SearchMatch where
  score : ℚ
  text : Option PyVal
  doc_id : Option PyVal

/-- `semantic_search`'s result shaping: `client.query_points` yields
`(point, score)` pairs (modelled by the point's payload and the score), and
each is mapped to `{"score": score, "text": payload.get("chunk_text"),
"doc_id": payload.get("doc_id")}`. -/
def semantic_search (queryResults : List (PyDict × ℚ)) : List SearchMatch :=
  queryResults.map (fun pr =>
    { score := pr.2, text := dictGet pr.1 "chunk_text", doc_id := dictGet pr.1 "doc_id" })

/-! ## Embedder lemmas -/

theorem randomVec_length (rng : Nat → ℚ) : (randomVec rng).length = 512 := by
  simp [randomVec]

theorem padTruncate_length (v : List ℚ) : (padTruncate v).length = 512 := by
  simp only [padTruncate]
  by_cases h : v.length < 512
  · rw [if_pos h, List.length_append, List.length_replicate]; omega
  · rw [if_neg h, List.length_take]; omega

theorem get_tfidf_embedding_length (sk : Bool) (rng : Nat → ℚ) (text : List Char) :
    (get_tfidf_embedding sk rng text).length = 512 := by
  cases sk with
  | false => exact randomVec_length rng
  | true =>
    show (match tfidfRaw text with
      | some v => padTruncate v
      | none => randomVec rng).length = 512
    cases tfidfRaw text with
    | some v => exact padTruncate_length v
    | none => exact randomVec_length rng

/-! ## Upsert lemmas -/

theorem qdrantUpsert_not_mem (i : Nat) :
    ∀ (pts : List StoredPoint) (c : Nat → Option StoredPoint),
      (∀ p ∈ pts, p.id ≠ i) → qdrantUpsert c pts i = c i := by
  intro pts
  induction pts with
  | nil => intro c _; rfl
  | cons q rest ih =>
    intro c h
    show qdrantUpsert (upsertStep c q) rest i = c i
    rw [ih (upsertStep c q) (fun p hp => h p (List.mem_cons_of_mem q hp))]
    simp only [upsertStep]
    rw [if_neg (h q (List.mem_cons_self q rest))]

theorem enumFrom_fst_ge {α : Type} :
    ∀ (l : List α) (k : Nat) (x : Nat × α), x ∈ l.enumFrom k → k ≤ x.1 := by
  intro l
  induction l with
  | nil => intro k x h; exact absurd h (List.not_mem_nil x)
  | cons a tl ih =>
    intro k x h
    rcases List.mem_cons.mp h with h | h
    · rw [h]
    · exact Nat.le_of_succ_le (ih (k + 1) x h)

theorem qdrantUpsert_enumFrom (embedOf : String → List ℚ) (metadata : PyDict) :
    ∀ (chunks : List String) (k : Nat) (c : Nat → Option StoredPoint) (i : Nat),
      k ≤ i → i < k + chunks.length →
      qdrantUpsert c ((chunks.enumFrom k).map (fun ic => mkPoint embedOf metadata ic.1 ic.2)) i
        = some (mkPoint embedOf metadata i (chunks.getD (i - k) "")) := by
  intro chunks
  induction chunks with
  | nil =>
    intro k c i h1 h2
    simp only [List.length_nil] at h2
    omega
  | cons ch rest ih =>
    intro k c i h1 h2
    show qdrantUpsert (upsertStep c (mkPoint embedOf metadata k ch))
      ((rest.enumFrom (k + 1)).map (fun ic => mkPoint embedOf metadata ic.1 ic.2)) i = _
    by_cases hik : i = k
    · subst hik
      rw [qdrantUpsert_not_mem i _ _ ?_]
      · have hid : (mkPoint embedOf metadata i ch).id = i := rfl
        simp only [upsertStep, if_pos hid, Nat.sub_self, List.getD_cons_zero]
      · intro p hp
        rw [List.mem_map] at hp
        obtain ⟨ic, hic, hpe⟩ := hp
        have := enumFrom_fst_ge rest (i + 1) ic hic
        rw [← hpe]
        show ic.1 ≠ i
        omega
    · have hki : k + 1 ≤ i := by omega
      have h2' : i < (k + 1) + rest.length := by
        simp only [List.length_cons] at h2; omega
      rw [ih (k + 1) _ i hki h2']
      have hs : i - k = (i - (k + 1)) + 1 := by omega
      rw [hs, List.getD_cons_succ]

/-! ## Non-termination of the splitter loop on concrete inputs

On `"a bxxxx"` with `chunk_size = 3`, `chunk_overlap = 2` (a valid
configuration, `overlap < size`), the first iteration backs off to the space:
`end = 2`, the chunk is `"a"`, and the cursor update
`start = end - overlap = 0` reproduces the initial state, so the `while` loop
never exits.  On `"abc"` with `chunk_size = 2`, `chunk_overlap = 5`, `end = 2`
and `start = max(0, 2 - 5) = 0` likewise reproduces the initial state. -/

theorem loopStepStuckA (n : Nat) (acc : List (List Char)) :
    splitTextLoop (mkSplitter 3 2 none) ("a bxxxx".toList) (n + 1) 0 acc
      = splitTextLoop (mkSplitter 3 2 none) ("a bxxxx".toList) n 0 (acc ++ [['a']]) := rfl

theorem loopNoneA (n : Nat) :
    ∀ acc : List (List Char),
      splitTextLoop (mkSplitter 3 2 none) ("a bxxxx".toList) n 0 acc = none := by
  induction n with
  | zero => intro acc; rfl
  | succ m ih =>
    intro acc
    rw [loopStepStuckA]
    exact ih (acc ++ [['a']])

theorem loopStepStuckB (n : Nat) (acc : List (List Char)) :
    splitTextLoop (mkSplitter 2 5 none) ("abc".toList) (n + 1) 0 acc
      = splitTextLoop (mkSplitter 2 5 none) ("abc".toList) n 0 (acc ++ [['a', 'b']]) := rfl

theorem loopNoneB (n : Nat) :
    ∀ acc : List (List Char),
      splitTextLoop (mkSplitter 2 5 none) ("abc".toList) n 0 acc = none := by
  induction n with
  | zero => intro acc; rfl
  | succ m ih =>
    intro acc
    rw [loopStepStuckB]
    exact ih (acc ++ [['a', 'b']])

/-! ## Claim C1 -/

/-- C1, counterexample.  When the Gemini tier serves the request,
`get_embedding` returns the provider's vector unmodified; a 768-entry
response (the size actually produced by the provider's embedding model) is
passed through with length 768 ≠ 512, so the method does not guarantee the
configured dimension on the primary tier. -/
theorem C1_counterexample :
    get_embedding true (some (List.replicate 768 0)) true (fun _ => 0) ("hello".toList)
      = List.replicate 768 (0 : ℚ)
    ∧ (get_embedding true (some (List.replicate 768 0)) true (fun _ => 0)
        ("hello".toList)).length ≠ 512 := by
  constructor
  · rfl
  · show (List.replicate 768 (0 : ℚ)).length ≠ 512
    rw [List.length_replicate]
    omega

/-- C1 (amended): whenever a fallback tier serves the request — the embedder
is unavailable or the Gemini call raised — `get_embedding` returns a vector of
exactly 512 entries, and the tier cascade is total (no exception escapes);
the Gemini tier itself returns the provider's vector as-is, with no dimension
enforcement. -/
theorem C1_fallback_dimension (available : Bool) (geminiResult : Option (List ℚ))
    (sk : Bool) (rng : Nat → ℚ) (text : List Char)
    (h : available = false ∨ geminiResult = none) :
    (get_embedding available geminiResult sk rng text).length = 512 := by
  rcases h with h | h
  · subst h
    exact get_tfidf_embedding_length sk rng text
  · subst h
    cases available
    · exact get_tfidf_embedding_length sk rng text
    · exact get_tfidf_embedding_length sk rng text

/-- C1, witness for the amended theorem at a concrete input. -/
theorem C1_fallback_dimension_witness :
    (get_embedding false none true (fun _ => 0) ("hi".toList)).length = 512 :=
  C1_fallback_dimension false none true (fun _ => 0) ("hi".toList) (Or.inl rfl)

/-! ## Claim C2 -/

/-- C2: the termination guarantee fails.  With the valid configuration
`chunk_size = 3 > chunk_overlap = 2 ≥ 0` and input `"a bxxxx"`, the loop's
separator back-off sets `end = 2` and the cursor update
`start = end - overlap = 0` restores the initial state, so `split_text`
diverges: the fuel-indexed loop returns `none` for every fuel. -/
theorem C2_nontermination :
    (mkSplitter 3 2 none).chunk_overlap < (mkSplitter 3 2 none).chunk_size
    ∧ ∀ fuel, split_text (mkSplitter 3 2 none) ("a bxxxx".toList) fuel = none := by
  refine ⟨by decide, fun fuel => ?_⟩
  exact loopNoneA fuel []

/-! ## Claim C3 -/

/-- C3, counterexample.  Splitting `"ab cd"` with `chunk_size = 3`,
`chunk_overlap = 0` yields the trimmed fragments `["ab", "cd"]`; stripping the
(zero-length) overlaps and concatenating gives `"abcd"`, not `"ab cd"`: the
space removed by `strip()` is in no fragment, so the round-trip fails. -/
theorem C3_counterexample :
    split_text (mkSplitter 3 0 none) ("ab cd".toList) 2 = some ["ab".toList, "cd".toList]
    ∧ reconstructStripped 0 ["ab".toList, "cd".toList] ≠ ("ab cd".toList) := by
  exact ⟨rfl, by decide⟩

/-- C3 (amended): every fragment of a completed `split_text` run is a
contiguous slice of the input text (the trim of the window `[start, end)`),
so the output only ever duplicates or drops characters at fragment
boundaries; exact reconstruction fails because `strip()` discards boundary
whitespace. -/
theorem C3_fragments_slices (sp : RecursiveCharacterTextSplitter) (text : List Char)
    (fuel : Nat) (frags : List (List Char)) (f : List Char)
    (hs : split_text sp text fuel = some frags) (hf : f ∈ frags) :
    ∃ a b, f = (text.drop a).take b :=
  (split_text_mem sp text fuel frags f hs hf).2.2

/-- C3, witness for the amended theorem at a concrete input. -/
theorem C3_fragments_slices_witness :
    ∃ a b, ("ab".toList) = (("ab cd".toList).drop a).take b :=
  C3_fragments_slices (mkSplitter 3 0 none) ("ab cd".toList) 2
    ["ab".toList, "cd".toList] ("ab".toList) rfl (by decide)

/-! ## Claim C4 -/

/-- C4, counterexample.  The constructor performs no validation: with
`chunk_size = 2` and `chunk_overlap = 5` the values are stored exactly as
given (neither rejected nor clamped) and `split_text` is attempted with this
configuration, returning normally on `"ab"` — segmentation is not prevented. -/
theorem C4_counterexample :
    (mkSplitter 2 5 none).chunk_size = 2 ∧ (mkSplitter 2 5 none).chunk_overlap = 5
    ∧ split_text (mkSplitter 2 5 none) ("ab".toList) 1 = some ["ab".toList] :=
  ⟨rfl, rfl, rfl⟩

/-- C4 (amended): a configuration with `overlap ≥ maxSize` is silently
accepted — the constructor stores it unchanged and segmentation is attempted
with it; the run completes when the text fits within `chunk_size` and
diverges on longer texts (here `"abc"`: `none` for every fuel). -/
theorem C4_no_validation :
    (mkSplitter 2 5 none).chunk_overlap = 5
    ∧ split_text (mkSplitter 2 5 none) ("ab".toList) 1 = some ["ab".toList]
    ∧ ∀ fuel, split_text (mkSplitter 2 5 none) ("abc".toList) fuel = none := by
  refine ⟨rfl, rfl, fun fuel => ?_⟩
  exact loopNoneB fuel []

/-! ## Claim C5 -/

/-- C5, counterexample.  A `VectorMemory` object carries no status field: the
attributes ever assigned on it are `client`, `collection`, `embedder` and
`_fallback_storage` — none named `mode` or `status`, and nothing holding the
value "degraded"; the only observable mode indication is `client` being
`None`. -/
theorem C5_counterexample :
    "mode" ∉ vectorMemoryAttrNames ∧ "status" ∉ vectorMemoryAttrNames := by
  exact ⟨by decide, by decide⟩

/-- C5 (amended): when Qdrant initialisation fails, every subsequent
`store_document` and `retrieve` call still succeeds through the in-process
fallback list (both are total and raise nothing); the degraded mode is
observable only through the `client` attribute being `None`, not through a
dedicated status field. -/
theorem C5_degraded_behavior (name : String) (embedOf : String → List ℚ) (opFails : Bool)
    (chunks : List String) (md : PyDict) (srch : Option (List (PyDict × ℚ))) (k : Nat) :
    (vectorMemoryInit false name).client = none
    ∧ (store_document (vectorMemoryInit false name) embedOf opFails chunks md).fallback_storage
        = some (mkFallbackRecords chunks md)
    ∧ retrieve (store_document (vectorMemoryInit false name) embedOf opFails chunks md) srch k
        = ((mkFallbackRecords chunks md).take k).map (fun r =>
            [("text", PyVal.s r.text), ("metadata", PyVal.dict r.metadata)]) :=
  ⟨rfl, rfl, rfl⟩

/-! ## Claim C6 -/

/-- A payload of the shape `store_document` produces
(`{"text": chunk, **metadata, "chunk_id": idx}` with a filename in the
metadata). -/
def searchPayloadA : PyDict :=
  pyDict [("text", PyVal.s "hello"), ("filename", PyVal.s "f.pdf"), ("chunk_id", PyVal.n 0)]

/-- C6, counterexample.  `retrieve` returns the stored payloads themselves
(`[r.payload for r in results]`): for a search response carrying this payload
with score 9/10, the returned record is the payload, whose keys are `text`,
`filename` and `chunk_id` — it contains neither a `score` nor a `doc_id`
field, so the similarity score is not included in the returned records. -/
theorem C6_counterexample :
    retrieve
      { client := some (fun _ => none), collection := "exam_chunks", fallback_storage := none }
      (some [(searchPayloadA, (9 : ℚ) / 10)]) 5 = [searchPayloadA]
    ∧ "score" ∉ searchPayloadA.map Prod.fst
    ∧ "doc_id" ∉ searchPayloadA.map Prod.fst :=
  ⟨rfl, by decide, by decide⟩

/-- C6 (amended): on the connected path `retrieve` returns exactly the
store's ranked payloads, in order, with the similarity scores dropped; the
separate `/query` route (`semantic_search`) is the code that builds
`{score, text, doc_id}` records, keeping each result's score. -/
theorem C6_retrieve_payloads (coll : Nat → Option StoredPoint) (name : String)
    (fb : Option (List FallbackRecord)) (results : List (PyDict × ℚ)) (k : Nat)
    (qres : List (PyDict × ℚ)) :
    retrieve { client := some coll, collection := name, fallback_storage := fb }
      (some results) k = results.map Prod.fst
    ∧ (semantic_search qres).map SearchMatch.score = qres.map Prod.snd := by
  constructor
  · rfl
  · induction qres with
    | nil => rfl
    | cons pr rest ih => simp [semantic_search] at ih ⊢

/-! ## Claim C7 -/

/-- C7: for any configuration with `chunk_overlap < chunk_size`, every
fragment of a completed `split_text` run is non-empty after trimming
(`if chunk:` filters empties) and at most `chunk_size` characters long
(`end ≤ start + chunk_size`, and trimming only shortens). -/
theorem C7_fragment_bounds (sp : RecursiveCharacterTextSplitter) (text : List Char)
    (fuel : Nat) (frags : List (List Char)) (f : List Char)
    (_hov : sp.chunk_overlap < sp.chunk_size)
    (hs : split_text sp text fuel = some frags) (hf : f ∈ frags) :
    f ≠ [] ∧ f.length ≤ sp.chunk_size :=
  ⟨(split_text_mem sp text fuel frags f hs hf).1,
   (split_text_mem sp text fuel frags f hs hf).2.1⟩

/-- C7, witness at a concrete input. -/
theorem C7_fragment_bounds_witness :
    "hello world".toList ≠ []
    ∧ ("hello world".toList).length ≤ (mkSplitter 512 64 none).chunk_size :=
  C7_fragment_bounds (mkSplitter 512 64 none) ("hello world".toList) 1
    ["hello world".toList] ("hello world".toList) (by decide) rfl (by decide)

/-! ## Claim C8 -/

set_option maxRecDepth 4000 in
/-- C8, counterexample.  On input `"a"` the vectorizer's vocabulary is empty
(the token pattern requires at least two word characters), so even with
scikit-learn available the call raises internally and falls back to a fresh
random vector: two calls with different random draws return different
vectors. -/
theorem C8_counterexample :
    get_tfidf_embedding true (fun _ => 0) ("a".toList)
      ≠ get_tfidf_embedding true (fun _ => 1) ("a".toList) := by
  decide

/-- C8 (amended): `get_tfidf_embedding` is deterministic — independent of the
random source and of any external state — for every input text whose
vocabulary is non-empty, i.e. containing at least one non-stop-word token of
two or more word characters; on texts with an empty vocabulary it falls back
to a random vector. -/
theorem C8_deterministic (rng1 rng2 : Nat → ℚ) (text : List Char)
    (h : (sklearnTokens text).dedup ≠ []) :
    get_tfidf_embedding true rng1 text = get_tfidf_embedding true rng2 text := by
  have ht : tfidfRaw text
      = some (((sklearnTokens text).dedup).map (fun t => ((sklearnTokens text).count t : ℚ))) := by
    simp only [tfidfRaw, if_neg h]
  show (match tfidfRaw text with
      | some v => padTruncate v
      | none => randomVec rng1)
    = (match tfidfRaw text with
      | some v => padTruncate v
      | none => randomVec rng2)
  rw [ht]

/-- C8, witness for the amended theorem at a concrete input. -/
theorem C8_deterministic_witness :
    get_tfidf_embedding true (fun _ => 0) ("hello world".toList)
      = get_tfidf_embedding true (fun _ => 1) ("hello world".toList) :=
  C8_deterministic (fun _ => 0) (fun _ => 1) ("hello world".toList) (by decide)

/-! ## Claim C9 -/

/-- C9: on a connected client, `store_document` gives the point for chunk
`idx` the identifier `idx` (0..n-1), so after two successive calls every
point of the second call with index `i` below its chunk count occupies id
`i`: the first call's point at that id — whatever the first call stored — has
been replaced and is no longer retrievable by id. -/
theorem C9_id_overwrite (embedOf : String → List ℚ) (coll0 : Nat → Option StoredPoint)
    (name : String) (fb : Option (List FallbackRecord)) (md1 md2 : PyDict)
    (chunks1 chunks2 : List String) (i : Nat) (h : i < chunks2.length) :
    clientLookup
      (store_document
        (store_document
          { client := some coll0, collection := name, fallback_storage := fb }
          embedOf false chunks1 md1)
        embedOf false chunks2 md2) i
      = some (mkPoint embedOf md2 i (chunks2.getD i "")) := by
  show qdrantUpsert (qdrantUpsert coll0 (mkPoints embedOf md1 chunks1))
    (mkPoints embedOf md2 chunks2) i = _
  exact qdrantUpsert_enumFrom embedOf md2 chunks2 0
    (qdrantUpsert coll0 (mkPoints embedOf md1 chunks1)) i (Nat.zero_le i) (by omega)

/-- C9, witness: storing `["a","b","c"]` then `["x","y"]` leaves id 1 holding
the second call's chunk `"y"`. -/
theorem C9_id_overwrite_witness :
    clientLookup
      (store_document
        (store_document
          { client := some (fun _ => none), collection := "exam_chunks",
            fallback_storage := none }
          (fun _ => ([] : List ℚ)) false ["a", "b", "c"] [])
        (fun _ => ([] : List ℚ)) false ["x", "y"] []) 1
      = some (mkPoint (fun _ => ([] : List ℚ)) [] 1 "y") :=
  C9_id_overwrite (fun _ => ([] : List ℚ)) (fun _ => none) "exam_chunks" none [] []
    ["a", "b", "c"] ["x", "y"] 1 (by decide)

/-! ## Claim C10 -/

/-- C10: when the inner `try` of `store_document` fails on a connected
client, the exception is swallowed and the fallback list is reset and then
filled with exactly the current call's records — whatever `_fallback_storage`
held before (`fb`, arbitrary here) is discarded; the client and collection
are left as they were and no exception reaches the caller (the function is
total). -/
theorem C10_failure_resets_fallback (coll : Nat → Option StoredPoint) (name : String)
    (fb : Option (List FallbackRecord)) (embedOf : String → List ℚ)
    (chunks : List String) (md : PyDict) :
    store_document { client := some coll, collection := name, fallback_storage := fb }
      embedOf true chunks md
      = { client := some coll, collection := name,
          fallback_storage := some (mkFallbackRecords chunks md) } := rfl
